import Mathlib

/-!
# Verification of `search_console_query.py`

A shallow embedding of the bulk Google-Search-Console query script, together
with theorems settling the specification claims about it.

Conventions of the embedding:

* Python `None` becomes `Option.none`; a function that may `sys.exit` or raise
  an uncaught exception returns a sum/option describing that outcome.
* The remote API is a parameter (`backend`), mapping each request either to
  `none` (modelling `execute_request` returning `None`) or to a response; a
  response may or may not carry a `rows` key, modelled as `Option (List Row)`.
* Calendar dates are modelled as day ordinals (`Nat`); `strftime` formatting is
  an external library concern and is passed in as formatter parameters.
* Metric values (`clicks`, `impressions`, `ctr`, `position`) are carried as
  plain strings: the script never computes with them, it only reshapes rows.
* Wall-clock time for the rate limiter is modelled as a mock monotone clock
  over `ℚ`: `time.sleep d` advances it by `d`, the wrapped call advances it by
  the call's duration.
-/

namespace GSC

/-- One dimension filter, as produced by `generate_filters`:
`{'dimension': dim, 'operator': 'equals', 'expression': val}`. -/
structure Filter where
  dimension : String
  operator : String
  expression : String
deriving DecidableEq, Repr

/-- A `dimensionFilterGroups` entry: `{"groupType": "and", "filters": [...]}`. -/
structure FilterGroup where
  groupType : String
  filters : List Filter
deriving DecidableEq, Repr

/-- The body handed to `service.searchanalytics().query`.  The script never
puts a `startRow` key in the dict; the field is kept so that its absence
(`none`) is expressible. -/
structure Request where
  startDate : String
  endDate : String
  dimensions : List String
  rowLimit : Nat
  dimensionFilterGroups : List FilterGroup
  startRow : Option Nat
deriving DecidableEq, Repr

/-- One row of a search-analytics response:
`{keys: [...], clicks, impressions, ctr, position}`. -/
structure Row where
  keys : List String
  clicks : String
  impressions : String
  ctr : String
  position : String
deriving DecidableEq, Repr

/-- A successful response dict.  `none` models a response without a `'rows'`
key, `some rows` one with it. -/
abbrev ApiResponse := Option (List Row)

/-! ## `date_range` (source lines 94–106)

```python
current_date = date1
while current_date <= date2:
    yield current_date
    current_date += delta
```

Dates are day ordinals; `delta` is the default one day. -/

/-- `date_range(date1, date2)` with the default one-day step. -/
def date_range (date1 date2 : Nat) : List Nat :=
  if _h : date1 ≤ date2 then date1 :: date_range (date1 + 1) date2 else []
termination_by date2 + 1 - date1
decreasing_by omega

/-! ## `generate_filters` (source lines 109–119)

```python
kwargs = dict((k, v) for k, v in kwargs.items() if v)
dimensions = kwargs.keys()
values = list(kwargs.values())
for vals in itertools.product(*values):
    yield [{'dimension': dim, 'operator': 'equals', 'expression': val}
           for dim, val in zip(dimensions, vals)]
```

The only call site is `generate_filters(page=pages, device=..., country=...)`,
so the kwargs order is `page`, `device`, `country`. -/

/-- `itertools.product(*values)`: Cartesian product, leftmost list varying
slowest, exactly as `itertools.product` enumerates. -/
def listProduct {α : Type} : List (List α) → List (List α)
  | [] => [[]]
  | l :: ls => l.flatMap fun x => (listProduct ls).map fun xs => x :: xs

/-- The truthiness filter `dict((k, v) for k, v in kwargs.items() if v)`
applied to the call site's kwargs `(page, device, country)`. -/
def filterKwargs (page device country : List String) : List (String × List String) :=
  [("page", page), ("device", device), ("country", country)].filter fun kv => !kv.2.isEmpty

/-- `generate_filters(page=page, device=device, country=country)`, fully
materialised (the Python generator is consumed once per day; the list is the
same finite sequence). -/
def generate_filters (page device country : List String) : List (List Filter) :=
  let kw := filterKwargs page device country
  (listProduct (kw.map (·.2))).map fun vals =>
    ((kw.map (·.1)).zip vals).map fun dv =>
      { dimension := dv.1, operator := "equals", expression := dv.2 }

/-! ## `execute_request` (source lines 122–155)

```python
response = None
retries = 0
while retries <= max_retries:
    try:
        response = service.searchanalytics().query(...).execute()
        break
    except HttpError as e:
        ...
        if json_error['error']['code'] in retry_errors:
            time.sleep(wait_interval)
            retries += 1
            continue
        else:
            break
return response
```

`calls n` is the outcome of the `n`-th attempt of this invocation (the
attempt made while `retries = n`).  Besides the returned response the model
reports the number of attempts made and the total seconds slept, so the
retry/wait behaviour is observable. -/

/-- Outcome of one remote attempt: a response dict, or an `HttpError`
carrying the status code found at `json_error['error']['code']`. -/
inductive CallOutcome where
  | ok (resp : ApiResponse)
  | httpError (code : Nat)
deriving DecidableEq, Repr

/-- The retry loop of `execute_request`, entered with loop counter `retries`
and `slept` seconds of wait already performed.  Returns
`(response, attempts made, total seconds slept)`. -/
def execute_request_loop (calls : Nat → CallOutcome) (retry_errors : List Nat)
    (max_retries wait_interval retries slept : Nat) :
    Option ApiResponse × Nat × Nat :=
  if _h : retries ≤ max_retries then
    match calls retries with
    | .ok r => (some r, retries + 1, slept)
    | .httpError c =>
      if c ∈ retry_errors then
        execute_request_loop calls retry_errors max_retries wait_interval
          (retries + 1) (slept + wait_interval)
      else (none, retries + 1, slept)
  else (none, retries, slept)
termination_by max_retries + 1 - retries
decreasing_by omega

/-- `execute_request`; the call site uses the keyword defaults
`max_retries=5, wait_interval=4, retry_errors=(503, 500)`, which callers of
this model pass explicitly.  Total on every input: an `HttpError` is always
caught, never re-raised. -/
def execute_request (calls : Nat → CallOutcome) (max_retries wait_interval : Nat)
    (retry_errors : List Nat) : Option ApiResponse × Nat × Nat :=
  execute_request_loop calls retry_errors max_retries wait_interval 0 0

/-! ## `rate_limit` (source lines 27–43)

```python
min_interval = 60.0 / float(max_per_minute)
def rate_limited_function(*args, **kwargs):
    elapsed = time.clock() - last_time_called[0]
    wait_for = min_interval - elapsed
    if wait_for > 0:
        time.sleep(wait_for)
    ret = func(*args, **kwargs)
    last_time_called[0] = time.clock()
    return ret
```

The clock is the mock monotone time: `st.now` is the current reading,
`st.lastTimeCalled` the closure cell `last_time_called[0]` (initially `0.0`).
The wrapped call itself takes `dur ≥ 0` seconds. -/

/-- The process-wide state of one `rate_limit` closure plus the clock. -/
structure RLState where
  now : ℚ
  lastTimeCalled : ℚ
deriving DecidableEq, Repr

/-- `min_interval` for the decorator instance `@rate_limit(200)` on
`execute_request`. -/
def min_interval : ℚ := 60 / 200

/-- One invocation of `rate_limited_function`: returns the time at which the
wrapped call is dispatched, and the state after it returns. -/
def rate_limited_call (minInterval dur : ℚ) (st : RLState) : ℚ × RLState :=
  let elapsed := st.now - st.lastTimeCalled
  let wait_for := minInterval - elapsed
  let start := if 0 < wait_for then st.now + wait_for else st.now
  let finish := start + dur
  (start, { now := finish, lastTimeCalled := finish })

/-- A strictly sequential run of rate-limited calls with the given durations:
returns the list of dispatch times and the final state. -/
def run_calls (minInterval : ℚ) : List ℚ → RLState → List ℚ × RLState
  | [], st => ([], st)
  | d :: ds, st =>
    let first := rate_limited_call minInterval d st
    let rest := run_calls minInterval ds first.2
    (first.1 :: rest.1, rest.2)

/-! ## `validate_google_query_dict` (source lines 158–165) -/

/-- `QUERY_REQUIRES` (source lines 20–24). -/
def QUERY_REQUIRES : List String := ["property_uri", "start_date", "end_date"]

/-- `validate_google_query_dict`, acting on the set of keys present in the
parameter dict:

```python
valid = True
for key in QUERY_REQUIRES:
    if key not in dict:
        valid = False
return valid
``` -/
def validate_google_query_dict (presentKeys : List String) : Bool :=
  QUERY_REQUIRES.foldl (fun valid key => if key ∈ presentKeys then valid else false) true

/-! ## `main` (source lines 168–279) -/

/-- Python's substring test `pat in line`. -/
def strContains (line pat : String) : Bool := decide (pat.toList <:+: line.toList)

/-- The page-list reading block (source lines 194–207).  `pagesPath` is the
string `settings["pages"]`, `fileLines` the lines of the file at that path
with trailing newlines stripped.  `none` models
`sys.exit("Your page list contains pages which don't have the GSC property in the URL. ...")`. -/
def read_pages (property_uri pagesPath : String) (fileLines : List String) :
    Option (List String) :=
  if pagesPath = "" then some [] else go fileLines
where
  go : List String → Option (List String)
    | [] => some []
    | line :: rest =>
      if strContains line property_uri then (go rest).map (line :: ·)
      else none

/-- The trailing-slash fix-up for `settings["output_location"]`
(source lines 211–213). -/
def fix_output_location (s : String) : String :=
  if s ≠ "" then (if s.takeRight 1 ≠ "/" then s ++ "/" else s) else s

/-- The request dict built for one day and one filter combination
(source lines 231–242).  No `startRow` key is ever put in the dict. -/
def build_request (day : String) (rowLimit : Nat) (filter_set : List Filter) : Request :=
  { startDate := day
    endDate := day
    dimensions := ["query"]
    rowLimit := rowLimit
    dimensionFilterGroups := [{ groupType := "and", filters := filter_set }]
    startRow := none }

/-- The failure log message (source lines 247–249):

```python
print("Request failed for " + request[...]['filters'][0]['expression'] +
      ". Device: "         + request[...]['filters'][1]['expression'] +
      ". Country: "        + request[...]['filters'][2]['expression'])
```

`none` models the `IndexError` raised when the filter set has fewer than
three filters: the exception is uncaught and kills the run. -/
def failure_log (filter_set : List Filter) : Option String :=
  match filter_set[0]?, filter_set[1]?, filter_set[2]? with
  | some f0, some f1, some f2 =>
    some ("Request failed for " ++ f0.expression ++ ". Device: " ++ f1.expression
      ++ ". Country: " ++ f2.expression)
  | _, _, _ => none

/-- The default contextual-filter tail (source lines 256–259).  Note the
source keys on `len(settings["pages"])` — the length of the *path string* —
and `settings["pages"][0]` is that string's first character. -/
def default_filters (pagesPath url_type : String) : List String :=
  if pagesPath.length = 1 then [pagesPath.take 1, "worldwide", "all_devices", url_type]
  else ["gsc_property", "worldwide", "all_devices", url_type]

/-- The override loop (source lines 261–267): each filter of the active
combination overwrites its dimension's slot in the tail. -/
def apply_overrides (filter_set : List Filter) (filters : List String) : List String :=
  filter_set.foldl
    (fun acc f =>
      if f.dimension = "page" then acc.set 0 f.expression
      else if f.dimension = "country" then acc.set 1 f.expression
      else if f.dimension = "device" then acc.set 2 f.expression
      else acc)
    filters

/-- One output record (source lines 269–274): joined keys, the four metrics,
the contextual tail, then the day. -/
def shape_row (filters : List String) (day : String) (row : Row) : List String :=
  [String.intercalate "," row.keys, row.clicks, row.impressions, row.ctr, row.position]
    ++ filters ++ [day]

/-- The inner loop of `main` over one day's filter combinations
(source lines 229–274).  Returns `(some output_rows, requests issued)` on
normal completion of the day, `(none, requests issued)` when the failure-log
`print` raises `IndexError` and kills the run. -/
def process_filter_sets (backend : Request → Option ApiResponse)
    (pagesPath url_type : String) (rowLimit : Nat) (day : String) :
    List (List Filter) → Option (List (List String)) × List Request
  | [] => (some [], [])
  | filter_set :: rest =>
    let request := build_request day rowLimit filter_set
    match backend request with
    | none =>
      match failure_log filter_set with
      | none => (none, [request])
      | some _ =>
        let r := process_filter_sets backend pagesPath url_type rowLimit day rest
        (r.1, request :: r.2)
    | some response =>
      let newRows : List (List String) :=
        match response with
        | none => []
        | some rows =>
          let filters := apply_overrides filter_set (default_filters pagesPath url_type)
          rows.map (shape_row filters day)
      let r := process_filter_sets backend pagesPath url_type rowLimit day rest
      (r.1.map (newRows ++ ·), request :: r.2)

/-- How a run of `main` ends. -/
inductive MainOutcome where
  /-- `validate_google_query_dict` failed: `main` returns
  `"You need a fully featured dictionary."`. -/
  | invalidParams
  /-- `sys.exit` from the page-list check. -/
  | fatalPageExit
  /-- Uncaught `IndexError` from the failure-log `print`. -/
  | crashed
  /-- Normal completion; the per-day CSV files written, in order. -/
  | finished (files : List (String × List (List String)))
deriving DecidableEq, Repr

/-- A run's observable result: the outcome and every request handed to
`execute_request`, in dispatch order. -/
structure MainResult where
  outcome : MainOutcome
  requests : List Request
deriving DecidableEq, Repr

/-- The day loop of `main` (source lines 224–279). -/
def run_days (backend : Request → Option ApiResponse)
    (fmtIso fmtCompact : Nat → String)
    (output_location pagesPath url_type : String) (rowLimit : Nat)
    (pages devices countries : List String) : List Nat → MainResult
  | [] => ⟨.finished [], []⟩
  | day :: rest =>
    let output_file := output_location ++ url_type ++ "_" ++ fmtCompact day ++ ".csv"
    let dayStr := fmtIso day
    let r := process_filter_sets backend pagesPath url_type rowLimit dayStr
      (generate_filters pages devices countries)
    match r.1 with
    | none => ⟨.crashed, r.2⟩
    | some output_rows =>
      let later := run_days backend fmtIso fmtCompact output_location pagesPath url_type
        rowLimit pages devices countries rest
      match later.outcome with
      | .finished files => ⟨.finished ((output_file, output_rows) :: files), r.2 ++ later.requests⟩
      | other => ⟨other, r.2 ++ later.requests⟩

/-- `main(google_sc_query_params)`: validation, page-list loading, then the
day loop.  `presentKeys` are the keys present in the parameter dict;
`startDay`/`endDay` the day ordinals of the parsed `start_date`/`end_date`;
`fmtIso`/`fmtCompact` model `strftime("%Y-%m-%d")`/`strftime("%Y%m%d")`. -/
def main_model (backend : Request → Option ApiResponse)
    (fmtIso fmtCompact : Nat → String) (presentKeys : List String)
    (property_uri : String) (startDay endDay : Nat)
    (output_location : String) (max_rows_per_day : Nat)
    (pagesPath : String) (pagesFileLines : List String)
    (devices countries : List String) (url_type : String) : MainResult :=
  if validate_google_query_dict presentKeys = false then ⟨.invalidParams, []⟩
  else
    match read_pages property_uri pagesPath pagesFileLines with
    | none => ⟨.fatalPageExit, []⟩
    | some pages =>
      let outLoc := fix_output_location output_location
      run_days backend fmtIso fmtCompact outLoc pagesPath url_type max_rows_per_day
        pages devices countries (date_range startDay endDay)

/-! ## Theorems about `date_range` -/

/-- `date_range` is exactly the one-day-step range `[date1, date1+1, …, date2]`. -/
theorem date_range_eq_range' (date1 date2 : Nat) :
    date_range date1 date2 = List.range' date1 (date2 + 1 - date1) := by
  unfold date_range
  split
  · next h =>
    rw [date_range_eq_range' (date1 + 1) date2]
    have h2 : date2 + 1 - date1 = (date2 + 1 - (date1 + 1)) + 1 := by omega
    rw [h2, List.range'_succ]
  · next h =>
    have h2 : date2 + 1 - date1 = 0 := by omega
    simp [h2]
termination_by date2 + 1 - date1
decreasing_by omega

/-- **C5**: for `date1 ≤ date2`, `date_range` yields exactly
`date2 - date1 + 1` dates, the `i`-th being `date1 + i` — so the sequence is
strictly increasing by exactly one calendar day, has no gaps, and includes
both endpoints; for `date2 < date1` it yields the empty sequence (the
implementation's explicit choice).  Being a plain function of its arguments,
the sequence is finite and restartable. -/
theorem C5_date_range_inclusive_daily (date1 date2 : Nat) :
    (date1 ≤ date2 →
      (date_range date1 date2).length = date2 - date1 + 1 ∧
      ∀ i : Nat, (h : i < (date_range date1 date2).length) →
        (date_range date1 date2).get ⟨i, h⟩ = date1 + i) ∧
    (date2 < date1 → date_range date1 date2 = []) := by
  constructor
  · intro hle
    constructor
    · rw [date_range_eq_range', List.length_range']
      omega
    · intro i h
      have hr := date_range_eq_range' date1 date2
      rw [List.get_of_eq hr ⟨i, h⟩]
      simp only [List.get_eq_getElem]
      exact List.getElem_range'_1 i _
  · intro hlt
    rw [date_range_eq_range']
    have h2 : date2 + 1 - date1 = 0 := by omega
    simp [h2]

/-- Witness for C5 at a concrete range (`3..6` forward, `5..2` reversed). -/
theorem C5_date_range_inclusive_daily_witness :
    (date_range 3 6).length = 6 - 3 + 1 ∧ date_range 5 2 = [] :=
  ⟨((C5_date_range_inclusive_daily 3 6).1 (by decide)).1,
   (C5_date_range_inclusive_daily 5 2).2 (by decide)⟩

/-! ## Theorems about `execute_request` -/

/-- If the attempts from loop counter `r` on fail retryably `k` times and the
`(r+k)`-th attempt returns a response, the loop returns that response after
exactly `k` further sleeps of `wait_interval`. -/
theorem execute_request_loop_success (calls : Nat → CallOutcome) (retry_errors : List Nat)
    (max_retries wait_interval : Nat) (resp : ApiResponse) :
    ∀ (k r s : Nat), (∀ i, i < k → ∃ c ∈ retry_errors, calls (r + i) = .httpError c) →
    calls (r + k) = .ok resp → r + k ≤ max_retries →
    execute_request_loop calls retry_errors max_retries wait_interval r s =
      (some resp, r + k + 1, s + k * wait_interval) := by
  intro k
  induction k with
  | zero =>
    intro r s _hfail hok hle
    unfold execute_request_loop
    rw [dif_pos (by omega)]
    simp only [Nat.add_zero] at hok
    rw [hok]
    simp
  | succ k ih =>
    intro r s hfail hok hle
    obtain ⟨c, hc, hcall⟩ := hfail 0 (by omega)
    unfold execute_request_loop
    rw [dif_pos (by omega)]
    simp only [Nat.add_zero] at hcall
    rw [hcall]
    simp only [hc, if_pos]
    have := ih (r + 1) (s + wait_interval)
      (fun i hi => by
        have := hfail (i + 1) (by omega)
        simpa [Nat.add_assoc, Nat.add_comm 1 i] using this)
      (by rw [show r + 1 + k = r + (k + 1) by omega]; exact hok)
      (by omega)
    rw [this]
    have h1 : r + 1 + k + 1 = r + (k + 1) + 1 := by omega
    have h2 : s + wait_interval + k * wait_interval = s + (k + 1) * wait_interval := by ring
    rw [h1, h2]

/-- If every attempt from loop counter `r` through `max_retries` fails
retryably, the loop exhausts its retries and returns `None`, having made
`max_retries + 1` attempts in total. -/
theorem execute_request_loop_exhaust (calls : Nat → CallOutcome) (retry_errors : List Nat)
    (max_retries wait_interval : Nat) :
    ∀ (r s : Nat), r ≤ max_retries + 1 →
    (∀ i, r ≤ i → i ≤ max_retries → ∃ c ∈ retry_errors, calls i = .httpError c) →
    execute_request_loop calls retry_errors max_retries wait_interval r s =
      (none, max_retries + 1, s + (max_retries + 1 - r) * wait_interval) := by
  intro r s hr hfail
  unfold execute_request_loop
  split
  · next h =>
    obtain ⟨c, hc, hcall⟩ := hfail r (Nat.le_refl r) h
    rw [hcall]
    simp only [hc, if_pos]
    rw [execute_request_loop_exhaust calls retry_errors max_retries wait_interval
      (r + 1) (s + wait_interval) (by omega) (fun i hi₁ hi₂ => hfail i (by omega) hi₂)]
    have hA : max_retries + 1 - (r + 1) = max_retries - r := by omega
    have hA2 : max_retries + 1 - r = (max_retries - r) + 1 := by omega
    rw [hA, hA2]
    have : s + wait_interval + (max_retries - r) * wait_interval =
        s + (max_retries - r + 1) * wait_interval := by ring
    rw [this]
  · next h =>
    have h1 : r = max_retries + 1 := by omega
    subst h1
    simp
termination_by r _ => max_retries + 1 - r
decreasing_by omega

/-- The loop never makes more than `max_retries + 1` attempts. -/
theorem execute_request_loop_attempts_le (calls : Nat → CallOutcome) (retry_errors : List Nat)
    (max_retries wait_interval : Nat) :
    ∀ (r s : Nat), r ≤ max_retries + 1 →
    (execute_request_loop calls retry_errors max_retries wait_interval r s).2.1 ≤
      max_retries + 1 := by
  intro r s hr
  unfold execute_request_loop
  split
  · next h =>
    match calls r with
    | .ok resp => simpa using by omega
    | .httpError c =>
      by_cases hc : c ∈ retry_errors
      · simp only [hc, if_pos]
        exact execute_request_loop_attempts_le calls retry_errors max_retries wait_interval
          (r + 1) (s + wait_interval) (by omega)
      · simp only [hc, if_neg, not_false_iff]
        simpa using by omega
  · next h => simpa using by omega
termination_by r _ => max_retries + 1 - r
decreasing_by omega

/-- **C1**: `execute_request` (a) returns the final attempt's response after
exactly `k` retries — `k + 1` attempts, `k` sleeps of `wait_interval` — when
the call fails with a retryable status exactly `k ≤ max_retries` times and
then succeeds; (b) on a non-retryable status it makes no retry and returns
`None` (the "no result" signal) immediately; (c) exhausting retries also
returns `None`; (d) at most `max_retries + 1` attempts are ever made.  The
model is a total function, so no `HttpError` ever escapes to the caller. -/
theorem C1_execute_request_retry (calls : Nat → CallOutcome)
    (max_retries wait_interval : Nat) (retry_errors : List Nat)
    (k : Nat) (resp : ApiResponse) (c : Nat) :
    ((∀ i, i < k → ∃ c' ∈ retry_errors, calls i = .httpError c') →
      calls k = .ok resp → k ≤ max_retries →
      execute_request calls max_retries wait_interval retry_errors =
        (some resp, k + 1, k * wait_interval)) ∧
    (calls 0 = .httpError c → c ∉ retry_errors →
      execute_request calls max_retries wait_interval retry_errors = (none, 1, 0)) ∧
    ((∀ i, i ≤ max_retries → ∃ c' ∈ retry_errors, calls i = .httpError c') →
      execute_request calls max_retries wait_interval retry_errors =
        (none, max_retries + 1, (max_retries + 1) * wait_interval)) ∧
    (execute_request calls max_retries wait_interval retry_errors).2.1 ≤ max_retries + 1 := by
  refine ⟨?_, ?_, ?_, ?_⟩
  · intro hfail hok hle
    have := execute_request_loop_success calls retry_errors max_retries wait_interval resp
      k 0 0 (fun i hi => by simpa using hfail i hi) (by simpa using hok) (by omega)
    simpa [execute_request] using this
  · intro hcall hc
    unfold execute_request execute_request_loop
    rw [dif_pos (by omega), hcall]
    simp [hc]
  · intro hfail
    have := execute_request_loop_exhaust calls retry_errors max_retries wait_interval
      0 0 (by omega) (fun i _ hi => hfail i hi)
    simpa [execute_request] using this
  · exact execute_request_loop_attempts_le calls retry_errors max_retries wait_interval
      0 0 (by omega)

/-- Witness for C1: two retryable 503 failures, then success, under the
default configuration `max_retries=5, wait_interval=4, retry_errors=(503,500)`:
the response is returned after exactly 2 retries (3 attempts, 8 seconds
slept). -/
theorem C1_execute_request_retry_witness :
    execute_request (fun n => if n < 2 then .httpError 503 else .ok (some [])) 5 4 [503, 500] =
      (some (some []), 3, 8) := by
  have h := (C1_execute_request_retry (fun n => if n < 2 then .httpError 503 else .ok (some []))
    5 4 [503, 500] 2 (some []) 0).1
    (by decide) (by decide) (by decide)
  simpa using h

/-! ## Theorems about `generate_filters` -/

/-- Summing a constant over a list multiplies it by the list's length. -/
theorem sum_map_const_nat {α : Type} (l : List α) (n : Nat) :
    (l.map fun _ => n).sum = l.length * n := by
  induction l with
  | nil => simp
  | cons a l ihl =>
    simp only [List.map_cons, List.sum_cons, List.length_cons, ihl]
    ring

/-- `itertools.product` yields exactly the product of the input lengths many
tuples. -/
theorem listProduct_length {α : Type} (ls : List (List α)) :
    (listProduct ls).length = (ls.map List.length).prod := by
  induction ls with
  | nil => rfl
  | cons l ls ih =>
    simp only [listProduct, List.length_flatMap, List.map_cons, List.prod_cons]
    have hconst : (l.map (List.length ∘ fun x => (listProduct ls).map fun xs => x :: xs)) =
        l.map fun _ => (listProduct ls).length := by
      apply List.map_congr_left
      intro x _
      simp
    rw [hconst, ← ih, sum_map_const_nat]

/-- Every tuple produced by `itertools.product` has one component per input
list. -/
theorem listProduct_mem_length {α : Type} (ls : List (List α)) :
    ∀ vals ∈ listProduct ls, vals.length = ls.length := by
  induction ls with
  | nil =>
    intro vals h
    simp only [listProduct, List.mem_singleton] at h
    simp [h]
  | cons l ls ih =>
    intro vals h
    simp only [listProduct, List.mem_flatMap, List.mem_map] at h
    obtain ⟨x, _hx, xs, hxs, rfl⟩ := h
    simp [ih xs hxs]

/-- `itertools.product` over duplicate-free lists yields duplicate-free
tuples. -/
theorem listProduct_nodup {α : Type} (ls : List (List α)) (h : ∀ l ∈ ls, l.Nodup) :
    (listProduct ls).Nodup := by
  induction ls with
  | nil => simp [listProduct]
  | cons l ls ih =>
    have hl : l.Nodup := h l (List.mem_cons_self l ls)
    have hls : (listProduct ls).Nodup := ih fun l' hl' => h l' (List.mem_cons_of_mem l hl')
    simp only [listProduct]
    rw [List.nodup_flatMap]
    constructor
    · intro x _hx
      exact hls.map fun xs ys hxy => by injection hxy
    · refine hl.imp ?_
      intro x y hxy
      intro zs hz1 hz2
      simp only [List.mem_map] at hz1 hz2
      obtain ⟨xs, _, rfl⟩ := hz1
      obtain ⟨ys, _, h2⟩ := hz2
      injection h2 with h2a _h2b
      exact hxy h2a.symm

/-- The kwargs kept by the truthiness filter are among `page`, `device`,
`country`. -/
theorem filterKwargs_mem (page device country : List String) :
    ∀ kv ∈ filterKwargs page device country,
      kv.2 = page ∨ kv.2 = device ∨ kv.2 = country := by
  intro kv hkv
  simp only [filterKwargs, List.mem_filter] at hkv
  rcases hkv with ⟨hmem, _⟩
  simp only [List.mem_cons, List.not_mem_nil, or_false] at hmem
  rcases hmem with h | h | h <;> subst h
  · exact Or.inl rfl
  · exact Or.inr (Or.inl rfl)
  · exact Or.inr (Or.inr rfl)

/-- **C3**: `generate_filters` yields exactly one combination per element of
the Cartesian product of the non-empty dimension lists (its length is the
product of their lengths); the combinations are pairwise distinct when the
value lists are duplicate-free; each combination carries exactly one
`equals` filter per kept (non-empty) dimension, in the fixed kwargs order —
so dimensions whose list is empty contribute no filter anywhere; and with
every list empty exactly one combination, the empty filter list, is
produced. -/
theorem C3_generate_filters_cartesian (page device country : List String)
    (hp : page.Nodup) (hd : device.Nodup) (hc : country.Nodup) :
    (generate_filters page device country).length =
      ((filterKwargs page device country).map fun kv => kv.2.length).prod ∧
    (generate_filters page device country).Nodup ∧
    (∀ fs ∈ generate_filters page device country,
      fs.map (·.dimension) = (filterKwargs page device country).map (·.1) ∧
      ∀ f ∈ fs, f.operator = "equals") ∧
    generate_filters [] [] [] = [[]] := by
  set kw := filterKwargs page device country with hkw
  have hkwnodup : ∀ l ∈ kw.map (·.2), l.Nodup := by
    intro l hl
    simp only [List.mem_map] at hl
    obtain ⟨kv, hkv, rfl⟩ := hl
    rcases filterKwargs_mem page device country kv hkv with h | h | h <;> rw [h] <;> assumption
  have hvlen : ∀ vals ∈ listProduct (kw.map (·.2)), vals.length = kw.length := by
    intro vals hv
    have := listProduct_mem_length (kw.map (·.2)) vals hv
    simpa using this
  refine ⟨?_, ?_, ?_, rfl⟩
  · simp only [generate_filters, List.length_map]
    rw [listProduct_length]
    simp [List.map_map, Function.comp_def]
  · simp only [generate_filters]
    refine List.Nodup.map_on ?_ (listProduct_nodup _ hkwnodup)
    intro vals hvals vals' hvals' heq
    have h1 : vals.length = kw.length := hvlen vals hvals
    have h2 : vals'.length = kw.length := hvlen vals' hvals'
    have hz : ∀ w : List String, w.length = kw.length →
        ((((kw.map (·.1)).zip w).map fun dv =>
          (⟨dv.1, "equals", dv.2⟩ : Filter)).map fun f => f.expression) = w := by
      intro w hw
      rw [List.map_map]
      have heqf : ((fun f : Filter => f.expression) ∘ fun dv : String × String =>
          (⟨dv.1, "equals", dv.2⟩ : Filter)) = Prod.snd := rfl
      rw [heqf]
      apply List.map_snd_zip
      simp [hw]
    have hcongr := congrArg (List.map fun f : Filter => f.expression) heq
    rw [hz vals h1, hz vals' h2] at hcongr
    exact hcongr
  · intro fs hfs
    simp only [generate_filters, List.mem_map] at hfs
    obtain ⟨vals, hvals, rfl⟩ := hfs
    constructor
    · rw [List.map_map]
      have heqf : ((fun f : Filter => f.dimension) ∘ fun dv : String × String =>
          (⟨dv.1, "equals", dv.2⟩ : Filter)) = Prod.fst := rfl
      rw [heqf]
      apply List.map_fst_zip
      simp [hvlen vals hvals]
    · intro f hf
      simp only [List.mem_map] at hf
      obtain ⟨dv, _, rfl⟩ := hf
      rfl

/-- Witness for C3: two pages and one device, countries unfiltered, with
duplicate-free inputs, give duplicate-free combinations (2 × 1 of them). -/
theorem C3_generate_filters_cartesian_witness :
    (generate_filters ["p1", "p2"] ["d1"] []).Nodup :=
  (C3_generate_filters_cartesian ["p1", "p2"] ["d1"] []
    (by decide) (by decide) (by decide)).2.1

/-! ## Theorems about the day loop of `main` -/

/-- When no request of a day fails, `main` issues exactly one request per
filter combination — built by `build_request`, in combination order — and
never more. -/
theorem process_filter_sets_requests_of_ok (backend : Request → Option ApiResponse)
    (pagesPath url_type : String) (rowLimit : Nat) (day : String) :
    ∀ L : List (List Filter),
      (∀ fs ∈ L, backend (build_request day rowLimit fs) ≠ none) →
      (process_filter_sets backend pagesPath url_type rowLimit day L).2 =
        L.map (build_request day rowLimit) := by
  intro L
  induction L with
  | nil => intro _; rfl
  | cons fs rest ih =>
    intro h
    have hfs := h fs (List.mem_cons_self fs rest)
    simp only [process_filter_sets]
    match hb : backend (build_request day rowLimit fs) with
    | none => exact absurd hb hfs
    | some response =>
      simp only [List.map_cons]
      rw [ih fun g hg => h g (List.mem_cons_of_mem fs hg)]

/-- Every request issued while processing a day's filter combinations comes
from `build_request` at one of the combinations. -/
theorem process_filter_sets_requests_mem (backend : Request → Option ApiResponse)
    (pagesPath url_type : String) (rowLimit : Nat) (day : String) :
    ∀ (L : List (List Filter)) (req : Request),
      req ∈ (process_filter_sets backend pagesPath url_type rowLimit day L).2 →
      ∃ fs ∈ L, req = build_request day rowLimit fs := by
  intro L
  induction L with
  | nil =>
    intro req h
    simp [process_filter_sets] at h
  | cons fs rest ih =>
    intro req h
    simp only [process_filter_sets] at h
    match hb : backend (build_request day rowLimit fs) with
    | none =>
      rw [hb] at h
      match hl : failure_log fs with
      | none =>
        rw [hl] at h
        simp only [List.mem_singleton] at h
        exact ⟨fs, List.mem_cons_self fs rest, h⟩
      | some msg =>
        rw [hl] at h
        simp only [List.mem_cons] at h
        rcases h with h | h
        · exact ⟨fs, List.mem_cons_self fs rest, h⟩
        · obtain ⟨g, hg, rfl⟩ := ih req h
          exact ⟨g, List.mem_cons_of_mem fs hg, rfl⟩
    | some response =>
      rw [hb] at h
      simp only [List.mem_cons] at h
      rcases h with h | h
      · exact ⟨fs, List.mem_cons_self fs rest, h⟩
      · obtain ⟨g, hg, rfl⟩ := ih req h
        exact ⟨g, List.mem_cons_of_mem fs hg, rfl⟩

/-- Every request issued by the day loop is built by `build_request` for some
day of the range and some generated filter combination. -/
theorem run_days_requests_mem (backend : Request → Option ApiResponse)
    (fmtIso fmtCompact : Nat → String)
    (output_location pagesPath url_type : String) (rowLimit : Nat)
    (pages devices countries : List String) :
    ∀ (days : List Nat) (req : Request),
      req ∈ (run_days backend fmtIso fmtCompact output_location pagesPath url_type
        rowLimit pages devices countries days).requests →
      ∃ day ∈ days, ∃ fs ∈ generate_filters pages devices countries,
        req = build_request (fmtIso day) rowLimit fs := by
  intro days
  induction days with
  | nil =>
    intro req h
    simp [run_days] at h
  | cons day rest ih =>
    intro req h
    simp only [run_days] at h
    set r := process_filter_sets backend pagesPath url_type rowLimit (fmtIso day)
      (generate_filters pages devices countries) with hr
    match h1 : r.1 with
    | none =>
      rw [h1] at h
      simp only at h
      obtain ⟨fs, hfs, rfl⟩ := process_filter_sets_requests_mem backend pagesPath url_type
        rowLimit (fmtIso day) (generate_filters pages devices countries) req (by rw [← hr]; exact h)
      exact ⟨day, List.mem_cons_self day rest, fs, hfs, rfl⟩
    | some output_rows =>
      rw [h1] at h
      simp only at h
      set later := run_days backend fmtIso fmtCompact output_location pagesPath url_type
        rowLimit pages devices countries rest with hlater
      have hsplit : req ∈ r.2 ∨ req ∈ later.requests := by
        match h2 : later.outcome with
        | .finished files =>
          rw [h2] at h
          simpa using List.mem_append.mp h
        | .invalidParams =>
          rw [h2] at h
          simpa using List.mem_append.mp h
        | .fatalPageExit =>
          rw [h2] at h
          simpa using List.mem_append.mp h
        | .crashed =>
          rw [h2] at h
          simpa using List.mem_append.mp h
      rcases hsplit with h | h
      · obtain ⟨fs, hfs, rfl⟩ := process_filter_sets_requests_mem backend pagesPath url_type
          rowLimit (fmtIso day) (generate_filters pages devices countries) req
          (by rw [← hr]; exact h)
        exact ⟨day, List.mem_cons_self day rest, fs, hfs, rfl⟩
      · obtain ⟨d, hd, fs, hfs, rfl⟩ := ih req h
        exact ⟨d, List.mem_cons_of_mem day hd, fs, hfs, rfl⟩

/-- A day with 12,000 matching rows on the remote side. -/
def twelveThousandRows : List Row :=
  List.replicate 12000 { keys := ["kw"], clicks := "1", impressions := "1",
                         ctr := "1.0", position := "1.0" }

/-- A mock API that *would* support pagination: it serves the slice of the
12,000-row table selected by the request's `startRow` (0 if absent) and
`rowLimit`. -/
def paging_backend (req : Request) : Option ApiResponse :=
  some (some ((twelveThousandRows.drop (req.startRow.getD 0)).take req.rowLimit))

/-- **C2, counterexample**: with page size 5000 and 12,000 matching rows the
claim demands exactly 3 requests for the (day, combination) pair; the script
issues exactly 1 — it has no pagination loop at all. -/
theorem C2_counterexample_no_pagination :
    (process_filter_sets paging_backend "" "prefix" 5000 "2023-01-01" [[]]).2.length = 1 ∧
    ¬ (process_filter_sets paging_backend "" "prefix" 5000 "2023-01-01" [[]]).2.length = 3 := by
  constructor
  · rfl
  · intro h
    rw [show (process_filter_sets paging_backend "" "prefix" 5000 "2023-01-01" [[]]).2.length = 1
      from rfl] at h
    exact absurd h (by decide)

/-- **C2, amended**: for every (day, filter-combination) pair the script
issues exactly one request — built by `build_request`, so with `rowLimit`
equal to the configured page size and no `startRow` offset — and never
iterates with increasing offsets; the response row count is never compared
with the page size. -/
theorem C2_one_request_per_combination (backend : Request → Option ApiResponse)
    (pagesPath url_type : String) (rowLimit : Nat) (day : String)
    (L : List (List Filter))
    (h : ∀ fs ∈ L, backend (build_request day rowLimit fs) ≠ none) :
    (process_filter_sets backend pagesPath url_type rowLimit day L).2 =
      L.map (build_request day rowLimit) ∧
    (process_filter_sets backend pagesPath url_type rowLimit day L).2.length = L.length ∧
    ∀ req ∈ (process_filter_sets backend pagesPath url_type rowLimit day L).2,
      req.startRow = none ∧ req.rowLimit = rowLimit := by
  have heq := process_filter_sets_requests_of_ok backend pagesPath url_type rowLimit day L h
  refine ⟨heq, by rw [heq]; exact List.length_map L _, ?_⟩
  intro req hreq
  obtain ⟨fs, _, rfl⟩ := process_filter_sets_requests_mem backend pagesPath url_type
    rowLimit day L req hreq
  exact ⟨rfl, rfl⟩

/-- Witness for the amended C2: one unfiltered combination against the
paging-capable mock still yields exactly one request. -/
theorem C2_one_request_per_combination_witness :
    (process_filter_sets paging_backend "" "prefix" 5000 "2023-01-01" [[]]).2.length =
      ([[]] : List (List Filter)).length :=
  (C2_one_request_per_combination paging_backend "" "prefix" 5000 "2023-01-01" [[]]
    (by intro fs _ hnone; exact Option.noConfusion hnone)).2.1

/-- **C9**: every request `main` hands to `execute_request` has dimensions
exactly `['query']`, `startDate = endDate` (the current day's ISO string for
a day of the range), `rowLimit` equal to the configured `max_rows_per_day`,
exactly one `dimensionFilterGroups` entry — group type `"and"`, holding one
generated filter combination — and no `startRow` field. -/
theorem C9_request_shape (backend : Request → Option ApiResponse)
    (fmtIso fmtCompact : Nat → String) (presentKeys : List String)
    (property_uri : String) (startDay endDay : Nat)
    (output_location : String) (max_rows_per_day : Nat)
    (pagesPath : String) (pagesFileLines : List String)
    (devices countries : List String) (url_type : String) (req : Request)
    (hreq : req ∈ (main_model backend fmtIso fmtCompact presentKeys property_uri
      startDay endDay output_location max_rows_per_day pagesPath pagesFileLines
      devices countries url_type).requests) :
    req.dimensions = ["query"] ∧
    req.rowLimit = max_rows_per_day ∧
    req.startRow = none ∧
    req.startDate = req.endDate ∧
    (∃ day ∈ date_range startDay endDay, req.startDate = fmtIso day) ∧
    ∃ pages, read_pages property_uri pagesPath pagesFileLines = some pages ∧
      ∃ fs ∈ generate_filters pages devices countries,
        req.dimensionFilterGroups = [{ groupType := "and", filters := fs }] := by
  unfold main_model at hreq
  by_cases hv : validate_google_query_dict presentKeys = false
  · rw [if_pos hv] at hreq
    simp at hreq
  · rw [if_neg hv] at hreq
    match hp : read_pages property_uri pagesPath pagesFileLines with
    | none =>
      rw [hp] at hreq
      simp at hreq
    | some pages =>
      rw [hp] at hreq
      simp only at hreq
      obtain ⟨day, hday, fs, hfs, rfl⟩ := run_days_requests_mem backend fmtIso fmtCompact
        (fix_output_location output_location) pagesPath url_type max_rows_per_day
        pages devices countries (date_range startDay endDay) req hreq
      exact ⟨rfl, rfl, rfl, rfl, ⟨day, hday, rfl⟩, pages, rfl, fs, hfs, rfl⟩

/-! The end-to-end scenario: property `https://example.com/`, single day
2023-01-01, `devices=["desktop"]`, `countries=[]`, no page list, mock API
returning two rows. -/

/-- The two rows the mock API returns for the scenario day. -/
def exampleRows : List Row :=
  [{ keys := ["kw1"], clicks := "1", impressions := "2", ctr := "0.5", position := "3.2" },
   { keys := ["kw2"], clicks := "4", impressions := "5", ctr := "0.1", position := "1.0" }]

/-- The scenario's mock API: every request succeeds with the two rows. -/
def example_backend : Request → Option ApiResponse := fun _ => some (some exampleRows)

/-- The scenario run of `main`. -/
def example_run : MainResult :=
  main_model example_backend (fun _ => "2023-01-01") (fun _ => "20230101")
    ["property_uri", "start_date", "end_date"] "https://example.com/" 0 0
    "" 5000 "" [] ["desktop"] [] "prefix"

/-- `date_range` over the single day `0`. -/
theorem date_range_zero_zero : date_range 0 0 = [0] := by
  rw [date_range_eq_range']
  rfl

/-- Witness for C9: the single request of the end-to-end scenario has a
`startRow`-free shape. -/
theorem C9_request_shape_witness :
    (build_request "2023-01-01" 5000
      [{ dimension := "device", operator := "equals", expression := "desktop" }]).dimensions =
        ["query"] ∧
    (build_request "2023-01-01" 5000
      [{ dimension := "device", operator := "equals", expression := "desktop" }]).startRow =
        none := by
  have h := C9_request_shape example_backend (fun _ => "2023-01-01") (fun _ => "20230101")
    ["property_uri", "start_date", "end_date"] "https://example.com/" 0 0
    "" 5000 "" [] ["desktop"] [] "prefix"
    (build_request "2023-01-01" 5000
      [{ dimension := "device", operator := "equals", expression := "desktop" }])
    (by simp only [main_model, date_range_zero_zero]; decide)
  exact ⟨h.1, h.2.2.1⟩

/-- **C4**: the code at the failing input.  With `devices=["desktop"]` and no
page or country filters, a request that yields the "no result" signal makes
the failure-log `print` index `filters[1]` of a one-element filter list: the
`IndexError` aborts the whole run (`crashed`), the day's CSV is never
written, and later combinations and days are never processed — whereas when
every combination carries three filters the run logs the failure and
continues, finishing with the day's (empty) accumulated rows written.  The
claim's "logs and continues, never aborts" is the evident intent (the source
comments `# skip rest of loop` and `continue`), but it fails whenever fewer
than three dimensions are filtered. -/
theorem C4_no_result_crashes_run :
    (main_model (fun _ => none) (fun _ => "2023-01-01") (fun _ => "20230101")
      ["property_uri", "start_date", "end_date"] "https://example.com/" 0 0
      "" 5000 "" [] ["desktop"] [] "prefix").outcome = .crashed ∧
    failure_log [{ dimension := "device", operator := "equals", expression := "desktop" }] =
      none ∧
    (main_model (fun _ => none) (fun _ => "2023-01-01") (fun _ => "20230101")
      ["property_uri", "start_date", "end_date"] "https://example.com/" 0 0
      "" 5000 "pages.txt" ["https://example.com/a"] ["desktop"] ["usa"] "prefix").outcome =
      .finished [("prefix_20230101.csv", [])] := by
  refine ⟨?_, rfl, ?_⟩ <;> simp only [main_model, date_range_zero_zero] <;> decide

/-! ## Theorems about the contextual-filter tail (`filters` in `main`) -/

/-- The override loop only overwrites slots; the tail keeps its length. -/
theorem apply_overrides_length (fs : List Filter) (l : List String) :
    (apply_overrides fs l).length = l.length := by
  induction fs generalizing l with
  | nil => rfl
  | cons f fs ih =>
    simp only [apply_overrides, List.foldl_cons] at ih ⊢
    rw [ih]
    split_ifs <;> simp [List.length_set]

/-- A slot of the contextual tail is untouched when no filter of the
combination carries that slot's dimension. -/
theorem apply_overrides_getElem_untouched (d : String) (i : Nat)
    (hdi : (d = "page" ∧ i = 0) ∨ (d = "country" ∧ i = 1) ∨ (d = "device" ∧ i = 2)) :
    ∀ (fs : List Filter) (l : List String), (∀ f ∈ fs, f.dimension ≠ d) →
      (apply_overrides fs l)[i]? = l[i]? := by
  intro fs
  induction fs with
  | nil => intro l _; rfl
  | cons f fs ih =>
    intro l hno
    have hf : f.dimension ≠ d := hno f (List.mem_cons_self f fs)
    simp only [apply_overrides, List.foldl_cons] at ih ⊢
    rw [ih _ fun g hg => hno g (List.mem_cons_of_mem f hg)]
    split_ifs with h1 h2 h3
    · -- the filter writes slot 0, so either `d = "page"` (contradiction) or `i ≠ 0`
      rcases hdi with ⟨hd, hi⟩ | ⟨hd, hi⟩ | ⟨hd, hi⟩ <;> subst hi
      · exact absurd (h1.trans hd.symm) hf
      · exact List.getElem?_set_ne (by decide)
      · exact List.getElem?_set_ne (by decide)
    · rcases hdi with ⟨hd, hi⟩ | ⟨hd, hi⟩ | ⟨hd, hi⟩ <;> subst hi
      · exact List.getElem?_set_ne (by decide)
      · exact absurd (h2.trans hd.symm) hf
      · exact List.getElem?_set_ne (by decide)
    · rcases hdi with ⟨hd, hi⟩ | ⟨hd, hi⟩ | ⟨hd, hi⟩ <;> subst hi
      · exact List.getElem?_set_ne (by decide)
      · exact List.getElem?_set_ne (by decide)
      · exact absurd (h3.trans hd.symm) hf
    · rfl

/-- A slot of the contextual tail is overridden to the combination's value
when a filter of that dimension is present (and the combination, like every
one `generate_filters` yields, has pairwise-distinct dimensions). -/
theorem apply_overrides_getElem_override (d : String) (i : Nat)
    (hdi : (d = "page" ∧ i = 0) ∨ (d = "country" ∧ i = 1) ∨ (d = "device" ∧ i = 2))
    (fs : List Filter) (l : List String) (f : Filter)
    (hnd : (fs.map (·.dimension)).Nodup) (hmem : f ∈ fs) (hd : f.dimension = d)
    (hi : i < l.length) :
    (apply_overrides fs l)[i]? = some f.expression := by
  obtain ⟨s, t, rfl⟩ := List.append_of_mem hmem
  have hnot : ∀ g ∈ t, g.dimension ≠ d := by
    intro g hg hgd
    have : ((s ++ f :: t).map (·.dimension)).Nodup := hnd
    rw [List.map_append, List.map_cons] at this
    have h2 : (f.dimension :: t.map (·.dimension)).Nodup := this.of_append_right
    rw [List.nodup_cons] at h2
    exact h2.1 (by rw [hd, ← hgd]; exact List.mem_map_of_mem _ hg)
  simp only [apply_overrides, List.foldl_append, List.foldl_cons]
  have hstep : (List.foldl
      (fun acc g =>
        if g.dimension = "page" then acc.set 0 g.expression
        else if g.dimension = "country" then acc.set 1 g.expression
        else if g.dimension = "device" then acc.set 2 g.expression
        else acc)
      l s) = apply_overrides s l := rfl
  set l' := apply_overrides s l with hl'
  have hlen : i < l'.length := by rw [apply_overrides_length]; exact hi
  have hwrite :
      (if f.dimension = "page" then l'.set 0 f.expression
       else if f.dimension = "country" then l'.set 1 f.expression
       else if f.dimension = "device" then l'.set 2 f.expression
       else l') = l'.set i f.expression := by
    rcases hdi with ⟨hd', hi'⟩ | ⟨hd', hi'⟩ | ⟨hd', hi'⟩ <;> subst hi' <;>
      rw [hd] at * <;> simp [hd']
  have huntouched := apply_overrides_getElem_untouched d i hdi t (l'.set i f.expression) hnot
  simp only [apply_overrides] at huntouched
  rw [hstep, hwrite, huntouched]
  exact List.getElem?_set_self hlen

/-- **C6**: every output record is the joined requested-dimension keys, the
four metrics in fixed order, then the fixed-order contextual tail and the
day; within the tail the country slot defaults to `"worldwide"` and the
device slot to `"all_devices"` when that dimension is not filtered in the
active combination, and is overridden to the combination's value when it is;
and in the end-to-end scenario (single day 2023-01-01,
`devices=["desktop"]`, `countries=[]`, two API rows) exactly one file
`prefix_20230101.csv` is produced with exactly the two shaped rows, each
carrying device `"desktop"` and country `"worldwide"`. -/
theorem C6_output_record_shape (pagesPath url_type day : String) (fs : List Filter)
    (row : Row) (hnd : (fs.map (·.dimension)).Nodup) :
    shape_row (apply_overrides fs (default_filters pagesPath url_type)) day row =
      [String.intercalate "," row.keys, row.clicks, row.impressions, row.ctr, row.position]
        ++ apply_overrides fs (default_filters pagesPath url_type) ++ [day] ∧
    (apply_overrides fs (default_filters pagesPath url_type)).length = 4 ∧
    ((∀ f ∈ fs, f.dimension ≠ "country") →
      (apply_overrides fs (default_filters pagesPath url_type))[1]? = some "worldwide") ∧
    (∀ f ∈ fs, f.dimension = "country" →
      (apply_overrides fs (default_filters pagesPath url_type))[1]? = some f.expression) ∧
    ((∀ f ∈ fs, f.dimension ≠ "device") →
      (apply_overrides fs (default_filters pagesPath url_type))[2]? = some "all_devices") ∧
    (∀ f ∈ fs, f.dimension = "device" →
      (apply_overrides fs (default_filters pagesPath url_type))[2]? = some f.expression) ∧
    example_run =
      ⟨.finished [("prefix_20230101.csv",
        [["kw1", "1", "2", "0.5", "3.2",
            "gsc_property", "worldwide", "desktop", "prefix", "2023-01-01"],
         ["kw2", "4", "5", "0.1", "1.0",
            "gsc_property", "worldwide", "desktop", "prefix", "2023-01-01"]])],
       [build_request "2023-01-01" 5000
         [{ dimension := "device", operator := "equals", expression := "desktop" }]]⟩ := by
  have hlen4 : (default_filters pagesPath url_type).length = 4 := by
    unfold default_filters
    split <;> rfl
  refine ⟨rfl, ?_, ?_, ?_, ?_, ?_, ?_⟩
  · rw [apply_overrides_length, hlen4]
  · intro hno
    rw [apply_overrides_getElem_untouched "country" 1 (Or.inr (Or.inl ⟨rfl, rfl⟩)) fs _ hno]
    unfold default_filters
    split <;> rfl
  · intro f hf hd
    exact apply_overrides_getElem_override "country" 1 (Or.inr (Or.inl ⟨rfl, rfl⟩))
      fs _ f hnd hf hd (by rw [hlen4]; omega)
  · intro hno
    rw [apply_overrides_getElem_untouched "device" 2 (Or.inr (Or.inr ⟨rfl, rfl⟩)) fs _ hno]
    unfold default_filters
    split <;> rfl
  · intro f hf hd
    exact apply_overrides_getElem_override "device" 2 (Or.inr (Or.inr ⟨rfl, rfl⟩))
      fs _ f hnd hf hd (by rw [hlen4]; omega)
  · unfold example_run
    simp only [main_model, date_range_zero_zero]
    decide

/-- Witness for C6 at a concrete combination: a device-only filter set leaves
country at `"worldwide"` and overrides device to `"desktop"`. -/
theorem C6_output_record_shape_witness :
    (apply_overrides [{ dimension := "device", operator := "equals", expression := "desktop" }]
      (default_filters "" "prefix"))[1]? = some "worldwide" ∧
    (apply_overrides [{ dimension := "device", operator := "equals", expression := "desktop" }]
      (default_filters "" "prefix"))[2]? = some "desktop" := by
  have h := C6_output_record_shape "" "prefix" "2023-01-01"
    [{ dimension := "device", operator := "equals", expression := "desktop" }]
    { keys := ["kw1"], clicks := "1", impressions := "2", ctr := "0.5", position := "3.2" }
    (by decide)
  refine ⟨h.2.2.1 (by decide), ?_⟩
  exact h.2.2.2.2.2.1
    { dimension := "device", operator := "equals", expression := "desktop" }
    (by decide) rfl

/-- **C10**: the page slot's default is keyed on the *length of the path
string* `settings["pages"]`: when that string has length exactly 1 the
default is the string's first character (`take 1` of it), otherwise the
literal `"gsc_property"`; in both cases an active page filter overrides the
slot with the combination's page value. -/
theorem C10_page_default_keyed_on_path_length (pagesPath url_type : String)
    (fs : List Filter) (hnd : (fs.map (·.dimension)).Nodup) :
    (pagesPath.length = 1 → (∀ f ∈ fs, f.dimension ≠ "page") →
      (apply_overrides fs (default_filters pagesPath url_type))[0]? =
        some (pagesPath.take 1)) ∧
    (pagesPath.length ≠ 1 → (∀ f ∈ fs, f.dimension ≠ "page") →
      (apply_overrides fs (default_filters pagesPath url_type))[0]? =
        some "gsc_property") ∧
    (∀ f ∈ fs, f.dimension = "page" →
      (apply_overrides fs (default_filters pagesPath url_type))[0]? =
        some f.expression) := by
  have hlen4 : (default_filters pagesPath url_type).length = 4 := by
    unfold default_filters
    split <;> rfl
  refine ⟨?_, ?_, ?_⟩
  · intro h1 hno
    rw [apply_overrides_getElem_untouched "page" 0 (Or.inl ⟨rfl, rfl⟩) fs _ hno]
    unfold default_filters
    rw [if_pos h1]
    rfl
  · intro h1 hno
    rw [apply_overrides_getElem_untouched "page" 0 (Or.inl ⟨rfl, rfl⟩) fs _ hno]
    unfold default_filters
    rw [if_neg h1]
    rfl
  · intro f hf hd
    exact apply_overrides_getElem_override "page" 0 (Or.inl ⟨rfl, rfl⟩)
      fs _ f hnd hf hd (by rw [hlen4]; omega)

/-- Witness for C10: path string `"."` (length 1) makes the default page
column `"."`; path string `"pages.txt"` makes it `"gsc_property"`; an active
page filter overrides either. -/
theorem C10_page_default_keyed_on_path_length_witness :
    (apply_overrides [] (default_filters "." "prefix"))[0]? = some "." ∧
    (apply_overrides [] (default_filters "pages.txt" "prefix"))[0]? = some "gsc_property" ∧
    (apply_overrides
      [{ dimension := "page", operator := "equals", expression := "https://example.com/a" }]
      (default_filters "pages.txt" "prefix"))[0]? = some "https://example.com/a" := by
  refine ⟨?_, ?_, ?_⟩
  · exact (C10_page_default_keyed_on_path_length "." "prefix" [] (by decide)).1
      (by decide) (by decide)
  · exact (C10_page_default_keyed_on_path_length "pages.txt" "prefix" [] (by decide)).2.1
      (by decide) (by decide)
  · exact (C10_page_default_keyed_on_path_length "pages.txt" "prefix"
      [{ dimension := "page", operator := "equals", expression := "https://example.com/a" }]
      (by decide)).2.2
      { dimension := "page", operator := "equals", expression := "https://example.com/a" }
      (by decide) rfl

/-! ## Theorems about configuration validation -/

/-- A missing required key makes `validate_google_query_dict` return
`False`. -/
theorem validate_missing_key (presentKeys : List String) (key : String)
    (hk : key ∈ QUERY_REQUIRES) (hmem : key ∉ presentKeys) :
    validate_google_query_dict presentKeys = false := by
  simp only [QUERY_REQUIRES, List.mem_cons, List.not_mem_nil, or_false] at hk
  rcases hk with h | h | h <;> subst h <;>
    simp [validate_google_query_dict, QUERY_REQUIRES, hmem]

/-- A page-list line not containing the property URI makes the reading loop
hit `sys.exit`. -/
theorem read_pages_go_none (property_uri : String) :
    ∀ (lines : List String) (line : String), line ∈ lines →
      strContains line property_uri = false →
      read_pages.go property_uri lines = none := by
  intro lines
  induction lines with
  | nil =>
    intro line h
    simp at h
  | cons l rest ih =>
    intro line hmem hline
    rcases List.mem_cons.mp hmem with h | h
    · subst h
      unfold read_pages.go
      rw [hline]
      simp
    · unfold read_pages.go
      split
      · rw [ih line h hline]
        rfl
      · rfl

/-- **C8**: configuration errors are fatal and abort the run before any
querying.  (a) With any of the required keys `property_uri`, `start_date`,
`end_date` missing from the parameter dict, `main` returns its early
"you need a fully featured dictionary" result with zero requests issued.
(b) With validation passing but a pages file supplied in which some line
does not contain the property URI as a substring, `main` hits `sys.exit`
with zero requests issued. -/
theorem C8_config_errors_fatal (backend : Request → Option ApiResponse)
    (fmtIso fmtCompact : Nat → String) (presentKeys : List String)
    (property_uri : String) (startDay endDay : Nat)
    (output_location : String) (max_rows_per_day : Nat)
    (pagesPath : String) (pagesFileLines : List String)
    (devices countries : List String) (url_type : String) (key line : String) :
    (key ∈ QUERY_REQUIRES → key ∉ presentKeys →
      main_model backend fmtIso fmtCompact presentKeys property_uri startDay endDay
        output_location max_rows_per_day pagesPath pagesFileLines devices countries url_type =
        ⟨.invalidParams, []⟩) ∧
    (validate_google_query_dict presentKeys = true → pagesPath ≠ "" →
      line ∈ pagesFileLines → strContains line property_uri = false →
      main_model backend fmtIso fmtCompact presentKeys property_uri startDay endDay
        output_location max_rows_per_day pagesPath pagesFileLines devices countries url_type =
        ⟨.fatalPageExit, []⟩) := by
  constructor
  · intro hk hmem
    have hv := validate_missing_key presentKeys key hk hmem
    unfold main_model
    rw [if_pos hv]
  · intro hv hpath hmem hline
    unfold main_model
    rw [if_neg (by rw [hv]; simp)]
    have hrp : read_pages property_uri pagesPath pagesFileLines = none := by
      unfold read_pages
      rw [if_neg hpath]
      exact read_pages_go_none property_uri pagesFileLines line hmem hline
    rw [hrp]

/-- Witness for C8: a dict missing `start_date` aborts before querying, and
a pages file whose line `/a` lacks the property URI aborts before
querying. -/
theorem C8_config_errors_fatal_witness :
    main_model (fun _ => none) (fun _ => "") (fun _ => "") ["property_uri"]
      "https://example.com/" 0 0 "" 5000 "" [] [] [] "prefix" =
      ⟨.invalidParams, []⟩ ∧
    main_model (fun _ => none) (fun _ => "") (fun _ => "")
      ["property_uri", "start_date", "end_date"]
      "https://example.com/" 0 0 "" 5000 "pages.txt" ["/a"] [] [] "prefix" =
      ⟨.fatalPageExit, []⟩ := by
  constructor
  · exact (C8_config_errors_fatal (fun _ => none) (fun _ => "") (fun _ => "")
      ["property_uri"] "https://example.com/" 0 0 "" 5000 "" [] [] [] "prefix"
      "start_date" "").1 (by decide) (by decide)
  · exact (C8_config_errors_fatal (fun _ => none) (fun _ => "") (fun _ => "")
      ["property_uri", "start_date", "end_date"] "https://example.com/" 0 0 ""
      5000 "pages.txt" ["/a"] [] [] "prefix" "" "/a").2
      (by decide) (by decide) (by decide) (by decide)

/-! ## Theorems about `rate_limit` -/

/-- One dispatch time per requested call. -/
theorem run_calls_length (mi : ℚ) (ds : List ℚ) :
    ∀ st : RLState, (run_calls mi ds st).1.length = ds.length := by
  induction ds with
  | nil => intro st; rfl
  | cons d ds ih =>
    intro st
    simp only [run_calls, List.length_cons]
    rw [ih]

/-- After a rate-limited call, `last_time_called` equals the clock and the
clock is the dispatch time plus the call's duration. -/
theorem rate_limited_call_state (mi d : ℚ) (st : RLState) :
    (rate_limited_call mi d st).2.now = (rate_limited_call mi d st).1 + d ∧
    (rate_limited_call mi d st).2.lastTimeCalled = (rate_limited_call mi d st).2.now := by
  simp [rate_limited_call]

/-- From a state whose clock equals `last_time_called` — exactly what holds
right after a call — the next dispatch is at least `min_interval` later. -/
theorem rate_limited_call_start_ge (mi d : ℚ) (hmi : 0 ≤ mi) (st : RLState)
    (hinv : st.lastTimeCalled = st.now) :
    st.now + mi ≤ (rate_limited_call mi d st).1 := by
  simp only [rate_limited_call, hinv]
  split_ifs with h
  · have : st.now - st.now = 0 := by ring
    linarith
  · have h0 : mi - (st.now - st.now) = mi := by ring
    rw [h0] at h
    have : mi = 0 := le_antisymm (not_lt.mp h) hmi
    linarith

/-- Consecutive dispatch times are at least `min_interval` apart: the wrapped
call is only dispatched once the interval has elapsed since the previous
call completed. -/
theorem run_calls_chain (mi : ℚ) (hmi : 0 ≤ mi) (ds : List ℚ) :
    ∀ st : RLState, (∀ d ∈ ds, 0 ≤ d) →
      List.Chain' (fun a b : ℚ => a + mi ≤ b) (run_calls mi ds st).1 := by
  induction ds with
  | nil => intro st _; simp [run_calls]
  | cons d ds ih =>
    intro st hd
    have hds : ∀ x ∈ ds, 0 ≤ x := fun x hx => hd x (List.mem_cons_of_mem d hx)
    have hd0 : 0 ≤ d := hd d (List.mem_cons_self d ds)
    simp only [run_calls]
    rw [List.chain'_cons']
    refine ⟨?_, ih _ hds⟩
    intro y hy
    match ds with
    | [] => simp [run_calls] at hy
    | d' :: ds' =>
      simp only [run_calls, List.head?_cons, Option.mem_some_iff] at hy
      subst hy
      have hstate := rate_limited_call_state mi d st
      have hnext := rate_limited_call_start_ge mi d' hmi (rate_limited_call mi d st).2
        (hstate.2.trans rfl)
      rw [hstate.1] at hnext
      linarith

/-- From consecutive spacing to spacing at any index distance. -/
theorem chain_add_le_get (c : ℚ) (l : List ℚ)
    (h : List.Chain' (fun a b : ℚ => a + c ≤ b) l) :
    ∀ (i k : Nat) (hk : i + k < l.length),
      l.get ⟨i, by omega⟩ + (k : ℚ) * c ≤ l.get ⟨i + k, hk⟩ := by
  intro i k
  induction k with
  | zero => intro hk; simp
  | succ k ihk =>
    intro hk
    have h1 := ihk (by omega)
    have h2 := List.chain'_iff_get.mp h (i + k) (by omega)
    have hcast : ((k + 1 : Nat) : ℚ) = (k : ℚ) + 1 := by push_cast; ring
    calc l.get ⟨i, by omega⟩ + ((k + 1 : Nat) : ℚ) * c
        = l.get ⟨i, by omega⟩ + (k : ℚ) * c + c := by rw [hcast]; ring
      _ ≤ l.get ⟨i + k, by omega⟩ + c := by linarith
      _ ≤ l.get ⟨i + k + 1, by omega⟩ := h2
      _ = l.get ⟨i + (k + 1), by omega⟩ := by congr 1

/-- The clock at the end of a run is no earlier than the last dispatch. -/
theorem run_calls_final_now (mi : ℚ) (ds : List ℚ) (hd : ∀ d ∈ ds, 0 ≤ d) :
    ∀ (st : RLState) (s : ℚ), (run_calls mi ds st).1.getLast? = some s →
      s ≤ (run_calls mi ds st).2.now := by
  induction ds with
  | nil =>
    intro st s hs
    simp [run_calls] at hs
  | cons d ds ih =>
    intro st s hs
    have hds : ∀ x ∈ ds, 0 ≤ x := fun x hx => hd x (List.mem_cons_of_mem d hx)
    have hd0 : 0 ≤ d := hd d (List.mem_cons_self d ds)
    match ds with
    | [] =>
      simp only [run_calls, List.getLast?_singleton, Option.some_inj] at hs
      subst hs
      simp only [run_calls, rate_limited_call]
      linarith
    | d' :: ds' =>
      simp only [run_calls] at hs ⊢
      rw [List.getLast?_cons_cons] at hs
      exact ih hds _ s (by simpa [run_calls] using hs)

/-- **C7**: with the process-wide limiter `@rate_limit(200)` — interval
`60/200` seconds — consecutive dispatch times in any run are at least the
interval apart; any call and the 200th call after it are at least 60 seconds
apart, so no 60-second window ever holds more than 200 dispatches; and a run
of `M` calls occupies the clock for at least `(M - 1) × 60/200` seconds
beyond the first dispatch, i.e. `(M/200)×60` minus one interval.  Time is
the injectable mock clock: `sleep` advances it by the wait, a call by its
(non-negative) duration. -/
theorem C7_rate_limit_spacing (ds : List ℚ) (st : RLState) (hds : ∀ d ∈ ds, 0 ≤ d) :
    (∀ i : Nat, (h : i + 1 < (run_calls min_interval ds st).1.length) →
      (run_calls min_interval ds st).1.get ⟨i, by omega⟩ + min_interval ≤
        (run_calls min_interval ds st).1.get ⟨i + 1, h⟩) ∧
    (∀ i : Nat, (h : i + 200 < (run_calls min_interval ds st).1.length) →
      (run_calls min_interval ds st).1.get ⟨i, by omega⟩ + 60 ≤
        (run_calls min_interval ds st).1.get ⟨i + 200, h⟩) ∧
    (∀ h : 0 < (run_calls min_interval ds st).1.length,
      (run_calls min_interval ds st).1.get ⟨0, h⟩ +
          ((ds.length : ℚ) - 1) * min_interval ≤
        (run_calls min_interval ds st).2.now) := by
  have hmi : (0 : ℚ) ≤ min_interval := by norm_num [min_interval]
  have hchain := run_calls_chain min_interval hmi ds st hds
  refine ⟨?_, ?_, ?_⟩
  · intro i h
    have := chain_add_le_get min_interval _ hchain i 1 h
    simpa using this
  · intro i h
    have := chain_add_le_get min_interval _ hchain i 200 h
    have h200 : ((200 : Nat) : ℚ) * min_interval = 60 := by norm_num [min_interval]
    rw [h200] at this
    exact this
  · intro h
    have hlen := run_calls_length min_interval ds st
    have hne : (run_calls min_interval ds st).1 ≠ [] := by
      intro hnil
      rw [hnil] at h
      simp at h
    have hlast : (run_calls min_interval ds st).1.getLast? =
        some ((run_calls min_interval ds st).1.get
          ⟨(run_calls min_interval ds st).1.length - 1, by omega⟩) := by
      rw [List.getLast?_eq_getElem?, List.getElem?_eq_getElem (by omega)]
      rfl
    have hfin := run_calls_final_now min_interval ds hds st _ hlast
    have hgap := chain_add_le_get min_interval _ hchain 0
      ((run_calls min_interval ds st).1.length - 1) (by omega)
    have hcast : (((run_calls min_interval ds st).1.length - 1 : Nat) : ℚ) =
        ((ds.length : ℚ)) - 1 := by
      rw [hlen] at h ⊢
      push_cast [Nat.cast_sub (by omega : 1 ≤ ds.length)]
      ring
    rw [hcast] at hgap
    have hidx : (0 : Nat) + ((run_calls min_interval ds st).1.length - 1) =
        (run_calls min_interval ds st).1.length - 1 := by omega
    calc (run_calls min_interval ds st).1.get ⟨0, h⟩ + ((ds.length : ℚ) - 1) * min_interval
        ≤ (run_calls min_interval ds st).1.get
            ⟨0 + ((run_calls min_interval ds st).1.length - 1), by omega⟩ := hgap
      _ = (run_calls min_interval ds st).1.get
            ⟨(run_calls min_interval ds st).1.length - 1, by omega⟩ := by
          congr 1
          simp only [Fin.mk.injEq]
          omega
      _ ≤ (run_calls min_interval ds st).2.now := hfin

/-- Witness for C7: two zero-duration calls from the initial state are
dispatched at `3/10` and `3/5` — exactly one interval apart. -/
theorem C7_rate_limit_spacing_witness :
    (run_calls min_interval [0, 0] ⟨0, 0⟩).1.get ⟨0, by decide⟩ + min_interval ≤
      (run_calls min_interval [0, 0] ⟨0, 0⟩).1.get ⟨1, by decide⟩ :=
  (C7_rate_limit_spacing [0, 0] ⟨0, 0⟩ (by decide)).1 0 (by decide)

end GSC
